import Mathlib

/-!
Verification of the digital-transformation index query application
(single source file, a Streamlit dashboard).

The embedding models the data pipeline of the source:
load spreadsheet rows, compute the weighted digitalization index
(column 数字化转型指数), classify each company into an industry
(column 行业) from keywords matched inside the company name
(column 企业名称), then filter by industry / index range / search term
and render the filtered table and a top-10 table.

Numeric frequency values and weights are modelled as rationals (ℚ);
file input and spreadsheet parsing, which are I/O in the source, are
modelled by an `Option (Except String (List Row))` parameter: `none`
when the file does not exist, `some (Except.error e)` when reading or
processing raises, and `some (Except.ok rows)` on success.
-/

namespace DTI

/-- The fixed spreadsheet path, constant `DEFAULT_FILE_PATH` in the source. -/
def DEFAULT_FILE_PATH : String :=
  "C:\\Users\\Lenovo\\Desktop\\text\\数字化转型词频统计结果（总）.xlsx"

/-- The five technology-frequency columns of the spreadsheet:
人工智能技术 (AI), 区块链技术 (blockchain), 大数据技术 (big data),
云计算技术 (cloud), 数字技术应用 (digital application). -/
inductive Tech : Type
  | ai
  | blockchain
  | bigData
  | cloud
  | digitalApp
  deriving DecidableEq

/-- One row of the source spreadsheet.  Field names translate the column
names used by the source: `stockCode` = 股票代码, `companyName` = 企业名称,
`freqOf` below gives the five technology-frequency columns, and
`totalWordCount` = 总词频数. -/
structure Row where
  stockCode : String
  companyName : String
  aiFreq : ℚ
  blockchainFreq : ℚ
  bigDataFreq : ℚ
  cloudFreq : ℚ
  digitalAppFreq : ℚ
  totalWordCount : ℚ
  deriving DecidableEq

/-- Look up the frequency value of one technology column in a row
(the source's `row[tech]`). -/
def Row.freqOf (r : Row) : Tech → ℚ
  | Tech.ai => r.aiFreq
  | Tech.blockchain => r.blockchainFreq
  | Tech.bigData => r.bigDataFreq
  | Tech.cloud => r.cloudFreq
  | Tech.digitalApp => r.digitalAppFreq

/-- The weight table `TECH_WEIGHTS` of the source:
人工智能技术 0.3, 区块链技术 0.1, 大数据技术 0.25, 云计算技术 0.15,
数字技术应用 0.2. -/
def TECH_WEIGHTS : List (Tech × ℚ) :=
  [(Tech.ai, 3/10),
   (Tech.blockchain, 1/10),
   (Tech.bigData, 1/4),
   (Tech.cloud, 3/20),
   (Tech.digitalApp, 1/5)]

/-- The derived index column 数字化转型指数:
`sum(row[tech] * weight for tech, weight in TECH_WEIGHTS.items())`. -/
def digitalization_index (r : Row) : ℚ :=
  (TECH_WEIGHTS.map (fun tw => r.freqOf tw.1 * tw.2)).sum

/-- The industry keyword table `INDUSTRY_MAPPING` of the source, in its
fixed iteration order. -/
def INDUSTRY_MAPPING : List (String × List String) :=
  [("金融", ["银行", "保险", "证券", "金融", "基金", "投资", "信托"]),
   ("房地产", ["地产", "置业", "房产", "物业", "房地产"]),
   ("制造业", ["制造", "工业", "科技", "电子", "机械", "设备", "汽车"]),
   ("交通运输", ["航空", "铁路", "物流", "港口", "运输", "交通", "航运"]),
   ("能源", ["电力", "石油", "煤炭", "能源", "燃气", "新能源"]),
   ("信息技术", ["信息", "技术", "软件", "互联网", "计算机", "通信"]),
   ("医疗健康", ["医疗", "医药", "健康", "生物", "制药"]),
   ("消费", ["零售", "食品", "饮料", "消费", "家电", "服装"]),
   ("教育", ["教育", "培训", "学校"]),
   ("传媒", ["传媒", "广告", "娱乐", "影视", "出版"])]

/-- Lower-cased character sequence of a string; models the
case-insensitivity (`case=False`) of the source's substring tests. -/
def lowerChars (s : String) : List Char :=
  s.toList.map Char.toLower

/-- Substring test on character lists: `charsContain pat l` holds when
`pat` occurs contiguously inside `l`. -/
def charsContain (pat : List Char) : List Char → Bool
  | [] => pat.isEmpty
  | c :: cs => pat.isPrefixOf (c :: cs) || charsContain pat cs

/-- Case-insensitive literal-substring test on strings: whether `pat`
occurs verbatim inside `s`, ignoring case. -/
def containsCI (s pat : String) : Bool :=
  charsContain (lowerChars pat) (lowerChars s)

/-- Token of the regular-expression fragment relevant to this program's
search patterns: a literal character, or the metacharacter dot, which
matches any character.  `Series.str.contains` interprets its argument as a
regular expression (`regex=True` by default), so a user-typed search term
is a pattern, not a literal. -/
inductive PatToken : Type
  | lit (c : Char)
  | dot
  deriving DecidableEq

/-- The regex metacharacters of Python's `re` module. -/
def isRegexMeta (c : Char) : Bool :=
  ['.', '^', '$', '*', '+', '?', '\x7b', '\x7d', '[', ']', '\\', '|', '(', ')'].contains c

/-- Compile a search term to pattern tokens: the metacharacter `.` becomes
the any-character token, every other character a literal.  The model covers
the regex fragment without structural metacharacters; terms using the other
metacharacters (alternation, repetition, groups, classes, anchors) are
outside its scope, and no theorem below is stated about them. -/
def compilePat (pat : String) : List PatToken :=
  pat.toList.map (fun c => if c = '.' then PatToken.dot else PatToken.lit c)

/-- Whether one pattern token matches one subject character,
case-insensitively (`case=False` sets `re.IGNORECASE`).  The dot matches
any character; the modelled strings contain no newline, where Python's dot
would differ. -/
def tokMatches : PatToken → Char → Bool
  | PatToken.lit c, d => c.toLower == d.toLower
  | PatToken.dot, _ => true

/-- Whether the token list matches a prefix of the subject. -/
def windowMatch : List PatToken → List Char → Bool
  | [], _ => true
  | _ :: _, [] => false
  | t :: ts, c :: cs => tokMatches t c && windowMatch ts cs

/-- Whether the token list matches anywhere inside the subject, the
`re.search` semantics of the modelled fragment. -/
def regexSearch (toks : List PatToken) : List Char → Bool
  | [] => toks.isEmpty
  | c :: cs => windowMatch toks (c :: cs) || regexSearch toks cs

/-- Model of `Series.str.contains(term, case=False)` on one element:
interpret the term as a regular expression and search for it
case-insensitively inside the string. -/
def strContainsCI (s pat : String) : Bool :=
  regexSearch (compilePat pat) s.toList

/-- Whether a company name matches the pattern `'|'.join(keywords)` of one
industry.  Every keyword of `INDUSTRY_MAPPING` is free of regex
metacharacters, so this alternation of literals matches exactly when some
keyword occurs verbatim in the name (case-insensitive). -/
def matchesAnyKeyword (name : String) (keywords : List String) : Bool :=
  keywords.any (fun kw => containsCI name kw)

/-- Industry classification of one company name, the per-row effect of
the source loop: start from 其他, then for each industry of
`INDUSTRY_MAPPING` in order overwrite the label whenever the name
matches that industry's keywords. -/
def classifyIndustry (name : String) : String :=
  INDUSTRY_MAPPING.foldl
    (fun label ik => if matchesAnyKeyword name ik.2 then ik.1 else label) "其他"

/-- The industries whose keyword set matches a name, in table order. -/
def matchedIndustries (name : String) : List String :=
  (INDUSTRY_MAPPING.filter (fun ik => matchesAnyKeyword name ik.2)).map Prod.fst

/-- The eleven possible values of the derived 行业 column: the ten
industries of `INDUSTRY_MAPPING` plus the default 其他. -/
def FIXED_LABELS : List String :=
  ["金融", "房地产", "制造业", "交通运输", "能源", "信息技术", "医疗健康",
   "消费", "教育", "传媒", "其他"]

/-- A row enriched with the two derived columns 数字化转型指数 and 行业. -/
structure EnrichedRow extends Row where
  index : ℚ
  industry : String
  deriving DecidableEq

/-- Enrichment of one row, the per-row effect of the load step. -/
def enrich (r : Row) : EnrichedRow :=
  { toRow := r
    index := digitalization_index r
    industry := classifyIndustry r.companyName }

/-- `load_and_calculate_index` of the source.  The filesystem outcome is
the parameter: `none` models a missing file (the `os.path.exists` test
fails), `some (Except.error e)` models `read_excel` or the subsequent
processing raising an exception `e`, and `some (Except.ok rows)` models
a successful read.  The result is the dataset together with the error
banner shown to the user (`st.error`), if any; the function is total,
so no outcome is an unhandled fault. -/
def load_and_calculate_index (fs : Option (Except String (List Row))) :
    List EnrichedRow × Option String :=
  match fs with
  | none => ([], some ("❌ 文件不存在: " ++ DEFAULT_FILE_PATH))
  | some (Except.error e) => ([], some ("❌ 数据处理失败: " ++ e))
  | some (Except.ok rows) => (rows.map enrich, none)

/-- The industry filter of `main`: guarded by `if selected_industries:`,
so an empty selection leaves the dataset unfiltered; otherwise keep the
rows whose 行业 is in the selection (`isin`). -/
def filterByIndustry (selected : List String) (df : List EnrichedRow) :
    List EnrichedRow :=
  if selected = [] then df
  else df.filter (fun r => decide (r.industry ∈ selected))

/-- The index-range filter of `main`:
`(index >= index_range[0]) & (index <= index_range[1])`. -/
def filterByRange (lo hi : ℚ) (df : List EnrichedRow) : List EnrichedRow :=
  df.filter (fun r => decide (lo ≤ r.index) && decide (r.index ≤ hi))

/-- The keyword-search filter of `main`: guarded by `if search_term:`, so
the empty term applies no filter; otherwise keep the rows where the term,
read as a regular expression (`str.contains` with its default
`regex=True`), matches case-insensitively inside 股票代码 or inside
企业名称. -/
def filterBySearch (term : String) (df : List EnrichedRow) : List EnrichedRow :=
  if term = "" then df
  else df.filter (fun r => strContainsCI r.stockCode term || strContainsCI r.companyName term)

/-- The whole filter pipeline of `main`, in source order:
industry, then index range, then search term. -/
def applyFilters (selected : List String) (lo hi : ℚ) (term : String)
    (df : List EnrichedRow) : List EnrichedRow :=
  filterBySearch term (filterByRange lo hi (filterByIndustry selected df))

/-- `sort_values(by='数字化转型指数', ascending=False)`: sort the view by
descending index.  The source relies on pandas' default sort kind
(quicksort), which does not guarantee the relative order of rows with
equal index; this executable model fixes ties with a merge sort, a choice
of the embedding that no theorem below relies on. -/
def sortByIndexDesc (df : List EnrichedRow) : List EnrichedRow :=
  df.mergeSort (fun a b => decide (b.index ≤ a.index))

/-- `.head(10)` of the descending sort: the top-10 table of `main`. -/
def top10 (df : List EnrichedRow) : List EnrichedRow :=
  (sortByIndexDesc df).take 10

/-- What `main` renders below the sidebar: the filtered table and the
top-10 table (the histogram is drawn from the same filtered view). -/
structure Render where
  filtered : List EnrichedRow
  topTable : List EnrichedRow
  deriving DecidableEq

/-- `main` of the source: load, short-circuit with a warning when the
dataset is empty (`if df.empty: return`), otherwise filter with the
user-supplied inputs and render. -/
def main (fs : Option (Except String (List Row))) (selected : List String)
    (lo hi : ℚ) (term : String) : Option Render :=
  let df := (load_and_calculate_index fs).1
  if df = [] then none
  else
    let filtered := applyFilters selected lo hi term df
    some { filtered := filtered, topTable := top10 filtered }

/-- A sample spreadsheet row with the frequency profile (10, 5, 8, 4, 6)
used by the spec's worked example. -/
def sampleRow : Row :=
  { stockCode := "000001"
    companyName := "平安银行"
    aiFreq := 10
    blockchainFreq := 5
    bigDataFreq := 8
    cloudFreq := 4
    digitalAppFreq := 6
    totalWordCount := 33 }

/-- A second sample row with the same company name as `sampleRow` but a
different stock code, frequencies and word count. -/
def sampleRowAltCode : Row :=
  { sampleRow with
    stockCode := "999999"
    aiFreq := 0
    blockchainFreq := 0
    bigDataFreq := 0
    cloudFreq := 0
    digitalAppFreq := 0
    totalWordCount := 7 }

/-- Substring correctness of `charsContain`: it decides contiguous
containment of one character list in another. -/
theorem charsContain_iff (pat l : List Char) :
    charsContain pat l = true ↔ pat <:+: l := by
  induction l with
  | nil => simp [charsContain]
  | cons c cs ih =>
    simp [charsContain, List.isPrefixOf_iff_prefix, ih, List.infix_cons_iff]

/-- The overwrite loop of the classifier, abstracted: folding the
overwrite step over any keyword table yields the label of the last
matching entry, or the initial label when nothing matches. -/
theorem classify_foldl (name : String) (items : List (String × List String)) :
    ∀ init : String,
      items.foldl (fun label ik => if matchesAnyKeyword name ik.2 then ik.1 else label) init
        = ((items.filter (fun ik => matchesAnyKeyword name ik.2)).map Prod.fst).getLastD init := by
  induction items with
  | nil => intro init; rfl
  | cons ik rest ih =>
    intro init
    by_cases h : matchesAnyKeyword name ik.2 = true
    · simp only [List.foldl_cons, List.filter_cons, h, if_true, List.map_cons,
        List.getLastD_cons]
      exact ih ik.1
    · simp only [List.foldl_cons, List.filter_cons, h, Bool.false_eq_true, if_false]
      exact ih init

/-- The classifier returns the last industry of the table whose keywords
match, defaulting to 其他. -/
theorem classifyIndustry_eq_getLastD (name : String) :
    classifyIndustry name = (matchedIndustries name).getLastD "其他" :=
  classify_foldl name INDUSTRY_MAPPING "其他"

/-- A pattern made of literal tokens matches a prefix of the subject
exactly when the lower-cased pattern characters are a prefix of the
lower-cased subject. -/
theorem windowMatch_lit (pat : List Char) :
    ∀ l : List Char,
      windowMatch (pat.map PatToken.lit) l
        = (pat.map Char.toLower).isPrefixOf (l.map Char.toLower) := by
  induction pat with
  | nil => intro l; cases l <;> rfl
  | cons c cs ih =>
    intro l
    cases l with
    | nil => rfl
    | cons d ds =>
      simp only [List.map_cons, windowMatch, tokMatches, List.isPrefixOf, ih]

/-- Searching a pattern of literal tokens is the case-insensitive literal
substring test. -/
theorem regexSearch_lit (pat : List Char) :
    ∀ l : List Char,
      regexSearch (pat.map PatToken.lit) l
        = charsContain (pat.map Char.toLower) (l.map Char.toLower) := by
  intro l
  induction l with
  | nil => cases pat <;> rfl
  | cons c cs ih =>
    simp only [List.map_cons, regexSearch, charsContain, ih, windowMatch_lit]

/-- On a search term free of regex metacharacters, the regex search of the
source coincides with literal case-insensitive substring containment. -/
theorem strContainsCI_literal (term : String)
    (hsafe : term.toList.all (fun c => !isRegexMeta c) = true) (s : String) :
    strContainsCI s term = containsCI s term := by
  have hmap : compilePat term = term.toList.map PatToken.lit := by
    rw [compilePat]
    refine List.map_congr_left ?_
    intro c hc
    have hmeta : isRegexMeta c = false := by
      have := List.all_eq_true.mp hsafe c hc
      simpa using this
    have hne : c ≠ '.' := by
      intro hdot
      rw [hdot] at hmeta
      exact absurd hmeta (by decide)
    rw [if_neg hne]
  rw [strContainsCI, hmap, regexSearch_lit, containsCI]
  rfl

/-- The index of the sample row, computed once for reuse. -/
theorem sampleRow_index : digitalization_index sampleRow = 73 / 10 := by
  norm_num [digitalization_index, TECH_WEIGHTS, Row.freqOf, sampleRow]

/-- C1: for every row, the derived digitalization index equals the
unnormalized weighted sum of the five technology-frequency columns with the
fixed weights AI=0.30, blockchain=0.10, big-data=0.25, cloud=0.15,
digital-application=0.20; in particular the frequency profile
(10, 5, 8, 4, 6) yields an index of exactly 7.3. -/
theorem C1_index_is_weighted_sum :
    (∀ r : Row, digitalization_index r
        = r.aiFreq * 0.3 + r.blockchainFreq * 0.1 + r.bigDataFreq * 0.25
          + r.cloudFreq * 0.15 + r.digitalAppFreq * 0.2)
    ∧ digitalization_index sampleRow = 7.3 := by
  constructor
  · intro r
    norm_num [digitalization_index, TECH_WEIGHTS, Row.freqOf]
    ring
  · rw [sampleRow_index]; norm_num

/-- C2 counterexample: on a one-row dataset, with no industry selected and
with range and search filters that exclude nothing, the filter pipeline
returns the whole dataset rather than the empty view the claim demands:
the guard `if selected_industries:` skips the industry filter entirely when
the selection is empty. -/
theorem C2_counterexample :
    applyFilters [] 0 10 "" [enrich sampleRow] = [enrich sampleRow]
    ∧ applyFilters [] 0 10 "" [enrich sampleRow] ≠ [] := by
  have hidx : (enrich sampleRow).index = 73 / 10 := sampleRow_index
  have hcond : (decide ((0 : ℚ) ≤ (enrich sampleRow).index)
      && decide ((enrich sampleRow).index ≤ (10 : ℚ))) = true := by
    rw [hidx]
    norm_num
  have h1 : applyFilters [] 0 10 "" [enrich sampleRow] = [enrich sampleRow] := by
    rw [applyFilters, filterByIndustry, if_pos rfl, filterByRange]
    simp only [List.filter_cons, List.filter_nil, hcond, eq_self_iff_true, if_true]
    rw [filterBySearch, if_pos rfl]
  exact ⟨h1, by rw [h1]; exact List.cons_ne_nil _ _⟩

/-- C2 amended: when the user-supplied set of selected industries is empty,
the industry filter is skipped rather than applied, so the Filter Engine
returns the dataset filtered only by the range and search conditions (in
particular the full dataset when those exclude nothing), not an empty
view. -/
theorem C2_empty_selection_skips (df : List EnrichedRow) (lo hi : ℚ)
    (term : String) :
    filterByIndustry [] df = df
    ∧ applyFilters [] lo hi term df = filterBySearch term (filterByRange lo hi df) := by
  constructor
  · rw [filterByIndustry, if_pos rfl]
  · rw [applyFilters, filterByIndustry, if_pos rfl]

/-- C3: a row whose company name matches the keyword sets of at least one
industry (in particular one matching two different industries) ends up
labeled with whichever of its matching industries is iterated last in the
fixed table order. -/
theorem C3_last_match_wins (name : String) (h : matchedIndustries name ≠ []) :
    classifyIndustry name = (matchedIndustries name).getLast h := by
  rw [classifyIndustry_eq_getLastD, List.getLastD_eq_getLast?,
    List.getLast?_eq_getLast _ h, Option.getD_some]

/-- Witness for C3: 银行软件 matches both 金融 (keyword 银行) and 信息技术
(keyword 软件), and its label is the later of the two matches. -/
theorem C3_witness :
    matchedIndustries "银行软件" ≠ [] ∧ classifyIndustry "银行软件" = "信息技术" := by
  refine ⟨by decide, ?_⟩
  rw [C3_last_match_wins "银行软件" (by decide)]
  decide

/-- C4 counterexample: 银行软件 matches 金融 first and 信息技术 second in
table order, yet its label is not the first match 金融, so first-match-wins
is false on the code. -/
theorem C4_counterexample :
    matchedIndustries "银行软件" = ["金融", "信息技术"]
    ∧ classifyIndustry "银行软件" ≠ "金融" := by decide

/-- C4 amended: when a company name matches the keyword sets of exactly two
industries, the row is labeled with the second of them in table iteration
order (last match wins), not the first. -/
theorem C4_two_matches_second_wins (name A B : String)
    (h : matchedIndustries name = [A, B]) : classifyIndustry name = B := by
  rw [classifyIndustry_eq_getLastD, h]
  rfl

/-- Witness for amended C4: 房产物流公司 matches 房地产 then 交通运输 and
is labeled 交通运输. -/
theorem C4_witness : classifyIndustry "房产物流公司" = "交通运输" :=
  C4_two_matches_second_wins "房产物流公司" "房地产" "交通运输" (by decide)

/-- C5: a missing file or a failing read/processing step yields an empty
dataset together with a descriptive error banner that carries the path,
respectively the underlying cause; no unhandled fault is possible since the
loader is a total function; and `main` renders nothing (downstream stages
are skipped) whenever the loaded dataset is empty. -/
theorem C5_load_failure_safe (selected : List String) (lo hi : ℚ) (term : String) :
    (load_and_calculate_index none
        = ([], some ("❌ 文件不存在: " ++ DEFAULT_FILE_PATH))
      ∧ main none selected lo hi term = none)
    ∧ (∀ e : String,
        load_and_calculate_index (some (Except.error e))
          = ([], some ("❌ 数据处理失败: " ++ e))
        ∧ main (some (Except.error e)) selected lo hi term = none)
    ∧ main (some (Except.ok [])) selected lo hi term = none :=
  ⟨⟨rfl, rfl⟩, fun _ => ⟨rfl, rfl⟩, rfl⟩

/-- C6: the range filter is inclusive at both bounds: a row whose index is
exactly the selected minimum or exactly the selected maximum is retained. -/
theorem C6_range_filter_inclusive (df : List EnrichedRow) (r : EnrichedRow)
    (lo hi : ℚ) (hmem : r ∈ df) (hlohi : lo ≤ hi)
    (hbound : r.index = lo ∨ r.index = hi) :
    r ∈ filterByRange lo hi df := by
  rw [filterByRange, List.mem_filter]
  refine ⟨hmem, ?_⟩
  rcases hbound with h | h <;> simp [h, hlohi, le_refl]

/-- Witness for C6: the sample row, whose index is exactly the lower bound
73/10, is retained by the range filter. -/
theorem C6_witness : enrich sampleRow ∈ filterByRange (73/10) 10 [enrich sampleRow] := by
  apply C6_range_filter_inclusive
  · exact List.mem_singleton.mpr rfl
  · norm_num
  · exact Or.inl sampleRow_index

/-- C7 counterexample: with the search term `.`, the filter retains the
sample row even though a dot occurs literally neither in its stock code
000001 nor in its company name 平安银行 — `str.contains` reads the term as
a regular expression, whose dot matches any character, so the claimed
exact-substring semantics is false of the code. -/
theorem C7_counterexample :
    filterBySearch "." [enrich sampleRow] = [enrich sampleRow]
    ∧ ("." : String) ≠ ""
    ∧ ¬ (lowerChars "." <:+: lowerChars (enrich sampleRow).stockCode
          ∨ lowerChars "." <:+: lowerChars (enrich sampleRow).companyName) := by
  have hpred : (strContainsCI (enrich sampleRow).stockCode "."
      || strContainsCI (enrich sampleRow).companyName ".") = true := by decide
  refine ⟨?_, by decide, by decide⟩
  rw [filterBySearch, if_neg (by decide)]
  simp only [List.filter_cons, List.filter_nil, hpred, eq_self_iff_true, if_true]

/-- C7 amended: the search term is interpreted as a regular expression
(`str.contains` defaults to `regex=True`), so metacharacter terms diverge
from substring semantics; for every non-empty term free of regex
metacharacters, the filter retains exactly the rows where the term occurs
as a case-insensitive substring of the stock code or of the company name
(logical OR), and an empty term applies no text filter at all. -/
theorem C7_literal_search (term : String) (df : List EnrichedRow)
    (hsafe : term.toList.all (fun c => !isRegexMeta c) = true) :
    (term = "" → filterBySearch term df = df)
    ∧ (term ≠ "" → ∀ r : EnrichedRow,
        r ∈ filterBySearch term df
          ↔ r ∈ df ∧ (lowerChars term <:+: lowerChars r.stockCode
              ∨ lowerChars term <:+: lowerChars r.companyName)) := by
  constructor
  · intro h
    rw [filterBySearch, if_pos h]
  · intro h r
    rw [filterBySearch, if_neg h, List.mem_filter]
    simp only [strContainsCI_literal term hsafe, containsCI, Bool.or_eq_true,
      charsContain_iff]

/-- Witness for amended C7: the metacharacter-free term 银行 keeps the
sample row, whose company name 平安银行 contains it. -/
theorem C7_witness : enrich sampleRow ∈ filterBySearch "银行" [enrich sampleRow] := by
  have h := (C7_literal_search "银行" [enrich sampleRow] (by decide)).2
    (by decide) (enrich sampleRow)
  refine h.mpr ⟨List.mem_singleton.mpr rfl, Or.inr ?_⟩
  decide

/-- C9: classification is total over the closed label set: every label is
one of the eleven fixed values, and a company name matching no configured
keyword is labeled 其他. -/
theorem C9_classification_total (name : String) :
    classifyIndustry name ∈ FIXED_LABELS
    ∧ ((∀ ik ∈ INDUSTRY_MAPPING, matchesAnyKeyword name ik.2 = false)
        → classifyIndustry name = "其他") := by
  constructor
  · rw [classifyIndustry_eq_getLastD]
    rcases hm : matchedIndustries name with _ | ⟨a, l⟩
    · decide
    · have hmem : (a :: l).getLastD "其他" ∈ a :: l := by
        rw [List.getLastD_eq_getLast?,
          List.getLast?_eq_getLast (a :: l) (List.cons_ne_nil a l), Option.getD_some]
        exact List.getLast_mem _
      have h10 : ∀ x ∈ INDUSTRY_MAPPING.map Prod.fst, x ∈ FIXED_LABELS := by decide
      have hsub : ∀ x ∈ a :: l, x ∈ FIXED_LABELS := by
        intro x hx
        rw [← hm] at hx
        obtain ⟨ik, hik, rfl⟩ := List.mem_map.1 hx
        exact h10 _ (List.mem_map_of_mem _ (List.mem_of_mem_filter hik))
      exact hsub _ hmem
  · intro hnone
    rw [classifyIndustry_eq_getLastD]
    have hfil : INDUSTRY_MAPPING.filter (fun ik => matchesAnyKeyword name ik.2) = [] := by
      rw [List.filter_eq_nil_iff]
      intro ik hik
      simp [hnone ik hik]
    have hm : matchedIndustries name = [] := by
      simp [matchedIndustries, hfil]
    rw [hm]
    rfl

/-- Witness for C9: a name containing no configured keyword is labeled
其他. -/
theorem C9_witness : classifyIndustry "ABCDE" = "其他" :=
  (C9_classification_total "ABCDE").2 (by decide)

/-- C10: the industry label of a row depends only on its company name: two
rows with identical company names receive identical labels, whatever their
stock codes, frequencies or word counts. -/
theorem C10_label_depends_only_on_name (r₁ r₂ : Row)
    (h : r₁.companyName = r₂.companyName) :
    (enrich r₁).industry = (enrich r₂).industry := by
  simp only [enrich]
  exact congrArg classifyIndustry h

/-- Witness for C10: two rows sharing the name 平安银行 but nothing else get
the same label. -/
theorem C10_witness :
    (enrich sampleRow).industry = (enrich sampleRowAltCode).industry :=
  C10_label_depends_only_on_name sampleRow sampleRowAltCode rfl

end DTI
